import Mathlib

/-
Verification of the golf-rules-rag document-structuring, chunking and
retrieval-routing core (Go sources: internal/processor (v2 build),
internal/database, internal/models (v2 build), cmd/golfqa).

Shallow embedding conventions:
* Go strings are modeled as lists of characters (`Str`); on the ASCII inputs
  considered, Go byte lengths coincide with character counts.
* Go maps are modeled as association lists carrying an explicit enumeration
  order, because Go `range` over a map has unspecified order; determinism
  questions are stated over that explicit order.
* Go regexp operations are embedded as hand-written scanners implementing the
  exact patterns used by the source.
* External collaborators (pgvector store, embedder, LLM) are modeled at their
  boundary: fallible calls are functions into `Except`; the vector store table
  is modeled as a list of rows given in ascending cosine-distance order for the
  query embedding at hand, so that ORDER BY distance plus LIMIT becomes `take`.
-/

namespace GolfRag

/-- Go strings modeled as lists of characters. -/
abbrev Str := List Char

/-- Coerce a Lean string literal into the model type. -/
def str (s : String) : Str := s.data

/-- First-occurrence search: `breakOn sep s = some (pre, post)` when
`s = pre ++ sep ++ post` and `pre` is the shortest such prefix; `none` when
`sep` does not occur in `s` (for nonempty `sep`). -/
def breakOn (sep : Str) : Str → Option (Str × Str)
  | [] => none
  | c :: cs =>
    if sep <+: (c :: cs) then some ([], (c :: cs).drop sep.length)
    else
      match breakOn sep cs with
      | some (pre, post) => some (c :: pre, post)
      | none => none

/-- Does `sep` occur somewhere in `s`. -/
def occurs (sep s : Str) : Bool := (breakOn sep s).isSome

/-- Go `strings.Contains(s, sub)` (the source never calls it with an empty
search string, for which Go would return true). -/
def goContains (s sub : Str) : Bool := occurs sub s

/-- Bounded-fuel splitter; with fuel above the length of the input it
implements Go `strings.Split` for a nonempty separator. -/
def splitFuel (sep : Str) : Nat → Str → List Str
  | 0, s => [s]
  | fuel + 1, s =>
    match breakOn sep s with
    | none => [s]
    | some (pre, post) => pre :: splitFuel sep fuel post

/-- Go `strings.Split(s, sep)`; the source never splits on an empty separator
(for which Go would explode the string into characters). -/
def splitOnStr (sep s : Str) : List Str :=
  if sep = [] then [s] else splitFuel sep (s.length + 1) s

/-- Go `unicode.IsSpace` restricted to the characters it recognizes in the
Latin-1 range (used by `strings.TrimSpace`). -/
def isUnicodeSpace (c : Char) : Bool :=
  c == ' ' || c == '\t' || c == '\n' || c == '\x0b' || c == '\x0c' || c == '\r' ||
  c == '\u0085' || c == ' '

/-- Go `strings.TrimSpace`. -/
def trimSpace (s : Str) : Str :=
  ((s.dropWhile isUnicodeSpace).reverse.dropWhile isUnicodeSpace).reverse

/-- The RE2 character class matched by a bare regex token for whitespace,
namely tab, newline, form feed, carriage return and space. -/
def isRegexSpace (c : Char) : Bool :=
  c == ' ' || c == '\t' || c == '\n' || c == '\x0c' || c == '\r'

/-- Consume a literal from the front of the input. -/
def dropLit : Str → Str → Option Str
  | [], s => some s
  | _ :: _, [] => none
  | c :: cs, d :: ds => if c = d then dropLit (cs) (ds) else none

/-- Go `strings.ReplaceAll(s, old, new)` for nonempty `old`. -/
def replaceAllLit (s old new : Str) : Str :=
  List.intercalate new (splitOnStr old s)

/- ===================== internal/models (v2 build) ====================== -/

/-- models.Metadata. -/
structure Metadata where
  pageNumber : Nat
  sectionName : Str
  title : Str
  hierarchy : Str
  subsection : Str
  subsecTitle : Str
  chunkType : Str
  parentRule : Str
deriving DecidableEq

/-- models.TextChunk; the float64 embedding vector is never inspected by the
core, so its payload is modeled opaquely as a list of integers. -/
structure TextChunk where
  id : Nat
  content : Str
  metadata : Metadata
  embedding : List Int
  crossReferences : List Str
  indexTerms : List Str
deriving DecidableEq

/-- models.RuleSubsection. -/
structure RuleSubsection where
  number : Str
  title : Str
  content : Str
  pageNumber : Nat
  path : Str
deriving DecidableEq

/-- models.RuleSection; the `Subsections` Go map is carried as an association
list in enumeration order. -/
structure RuleSection where
  number : Str
  title : Str
  pageNumber : Nat
  subsections : List (Str × RuleSubsection)
  content : Str
  path : Str
deriving DecidableEq

/-- models.GolfRuleHierarchy; the `Sections` Go map is carried as an
association list in enumeration order. -/
structure GolfRuleHierarchy where
  ruleNumber : Str
  title : Str
  pageNumber : Nat
  sections : List (Str × RuleSection)
  path : Str
  indexTerms : List Str
deriving DecidableEq

/-- models.Response (the wall-clock Timestamp field is omitted from the
model). -/
structure Response where
  answer : Str
  sources : List TextChunk
deriving DecidableEq

/-- models.IndexEntry. -/
structure IndexEntry where
  term : Str
  ruleReferences : List Str
deriving DecidableEq

def MAX_CHUNK_SIZE : Nat := 2000

def MIN_CHUNK_SIZE : Nat := 100

def DEFAULT_OVERLAP : Nat := 200

def emptyMetadata : Metadata :=
  { pageNumber := 0, sectionName := [], title := [], hierarchy := [],
    subsection := [], subsecTitle := [], chunkType := [], parentRule := [] }

def dummyChunk : TextChunk :=
  { id := 0, content := [], metadata := emptyMetadata, embedding := [],
    crossReferences := [], indexTerms := [] }

/- ================== internal/processor (v2 build): chunking =================== -/

/-- The paragraph separator used throughout the chunker. -/
def parSep : Str := str "\n\n"

/-- processor.getLastParagraph. -/
def getLastParagraph (text : Str) : Str :=
  (splitOnStr parSep text).getLastD []

/-- The metadata every chunk emitted by splitSectionIntoChunks carries. -/
def sectionChunkMk (cid : Nat) (content : Str) (ruleNum ruleTitle secNum secTitle path : Str)
    (pageNum : Nat) (indexTerms : List Str) : TextChunk :=
  { id := cid, content := content,
    metadata := { pageNumber := pageNum, sectionName := ruleNum, title := ruleTitle,
                  hierarchy := path, subsection := secNum, subsecTitle := secTitle,
                  chunkType := str "section", parentRule := ruleNum },
    embedding := [], crossReferences := [], indexTerms := indexTerms }

/-- Loop state of processor.splitSectionIntoChunks: emitted chunks, next chunk
id, and the current strings.Builder contents. -/
structure SplitAcc where
  chunks : List TextChunk
  cid : Nat
  buffer : Str
deriving DecidableEq

/-- One iteration of the paragraph loop of processor.splitSectionIntoChunks:
if adding the paragraph would exceed the configured size and the buffer is
already above MIN_CHUNK_SIZE, flush the buffer as a chunk and seed the next
buffer with the last paragraph of the just-flushed chunk; then append the
paragraph (with a separator when the buffer is nonempty). -/
def splitStep (sz : Nat) (ruleNum ruleTitle secNum secTitle path : Str) (pageNum : Nat)
    (indexTerms : List Str) (nparas : Nat) (st : SplitAcc) (para : Str) : SplitAcc :=
  let st' :=
    if st.buffer.length + para.length > sz ∧ st.buffer.length > MIN_CHUNK_SIZE then
      let chunks' := st.chunks ++
        [sectionChunkMk st.cid st.buffer ruleNum ruleTitle secNum secTitle path pageNum indexTerms]
      let buffer' :=
        if chunks'.length > 0 ∧ nparas > 1 then
          let lastPara := getLastParagraph (chunks'.getLastD dummyChunk).content
          if lastPara.length > 0 then lastPara ++ parSep else []
        else []
      ⟨chunks', st.cid + 1, buffer'⟩
    else st
  ⟨st'.chunks, st'.cid,
    if st'.buffer.length > 0 then st'.buffer ++ parSep ++ para else para⟩

/-- processor.splitSectionIntoChunks (Go parameter order preserved). -/
def splitSectionIntoChunks (sz : Nat) (content : Str) (startID : Nat)
    (ruleNum ruleTitle secNum secTitle path : Str) (pageNum : Nat)
    (indexTerms : List Str) : List TextChunk :=
  let paragraphs := splitOnStr parSep content
  let fin := paragraphs.foldl
    (splitStep sz ruleNum ruleTitle secNum secTitle path pageNum indexTerms paragraphs.length)
    ⟨[], startID, []⟩
  if fin.buffer.length > 0 then
    fin.chunks ++
      [sectionChunkMk fin.cid fin.buffer ruleNum ruleTitle secNum secTitle path pageNum indexTerms]
  else fin.chunks

/-- The subsection chunk built by the inner loop of
processor.createRuleBasedChunks. -/
def subsectionChunkMk (cid : Nat) (ruleNum ruleTitle subNum : Str) (sub : RuleSubsection)
    (indexTerms : List Str) : TextChunk :=
  { id := cid, content := sub.content,
    metadata := { pageNumber := sub.pageNumber, sectionName := ruleNum, title := ruleTitle,
                  hierarchy := sub.path, subsection := subNum, subsecTitle := sub.title,
                  chunkType := str "subsection", parentRule := ruleNum },
    embedding := [], crossReferences := [], indexTerms := indexTerms }

/-- The single chunk built for a section whose content fits the configured
size. -/
def singleSectionChunkMk (cid : Nat) (ruleNum ruleTitle secNum : Str) (sec : RuleSection)
    (indexTerms : List Str) : TextChunk :=
  { id := cid, content := sec.content,
    metadata := { pageNumber := sec.pageNumber, sectionName := ruleNum, title := ruleTitle,
                  hierarchy := sec.path, subsection := secNum, subsecTitle := sec.title,
                  chunkType := str "section", parentRule := ruleNum },
    embedding := [], crossReferences := [], indexTerms := indexTerms }

/-- The synthesized header chunk built for a rule. -/
def ruleChunkMk (cid : Nat) (ruleNum : Str) (rule : GolfRuleHierarchy) : TextChunk :=
  { id := cid, content := ruleNum ++ str " – " ++ rule.title ++ str "\n",
    metadata := { pageNumber := rule.pageNumber, sectionName := ruleNum, title := rule.title,
                  hierarchy := rule.path, subsection := [], subsecTitle := [],
                  chunkType := str "rule", parentRule := [] },
    embedding := [], crossReferences := [], indexTerms := rule.indexTerms }

/-- The inner subsection loop of processor.createRuleBasedChunks. -/
def subsectionStep (ruleNum ruleTitle : Str) (indexTerms : List Str)
    (st : List TextChunk × Nat) (entry : Str × RuleSubsection) : List TextChunk × Nat :=
  (st.1 ++ [subsectionChunkMk st.2 ruleNum ruleTitle entry.1 entry.2 indexTerms], st.2 + 1)

/-- The per-section body of processor.createRuleBasedChunks, including the
faithful `chunkID += len(chunks)` increment applied after appending the
split chunks (len(chunks) is the length of the WHOLE accumulated list). -/
def sectionStep (sz : Nat) (ruleNum ruleTitle : Str) (indexTerms : List Str)
    (st : List TextChunk × Nat) (entry : Str × RuleSection) : List TextChunk × Nat :=
  let secNum := entry.1
  let sec := entry.2
  let st' :=
    if sec.content.length > sz then
      let newChunks := splitSectionIntoChunks sz sec.content st.2 ruleNum ruleTitle
        secNum sec.title sec.path sec.pageNumber indexTerms
      let chunks' := st.1 ++ newChunks
      (chunks', st.2 + chunks'.length)
    else
      (st.1 ++ [singleSectionChunkMk st.2 ruleNum ruleTitle secNum sec indexTerms], st.2 + 1)
  sec.subsections.foldl (subsectionStep ruleNum ruleTitle indexTerms) st'

/-- The per-rule body of processor.createRuleBasedChunks. -/
def ruleStep (sz : Nat) (st : List TextChunk × Nat)
    (entry : Str × GolfRuleHierarchy) : List TextChunk × Nat :=
  let ruleNum := entry.1
  let rule := entry.2
  let st' := (st.1 ++ [ruleChunkMk st.2 ruleNum rule], st.2 + 1)
  rule.sections.foldl (sectionStep sz ruleNum rule.title rule.indexTerms) st'

/-- processor.createRuleBasedChunks; the `rules` association list is the rule
map together with the order in which Go `range` happens to enumerate it. -/
def createRuleBasedChunks (sz : Nat) (rules : List (Str × GolfRuleHierarchy)) : List TextChunk :=
  (rules.foldl (ruleStep sz) ([], 1)).1

/-- A chunk with its id erased, for comparing chunk lists up to id
assignment. -/
def eraseId (c : TextChunk) : TextChunk := { c with id := 0 }

/-- A chunk with its cross-reference field erased, for stating that the
cross-reference pass touches nothing else. -/
def eraseCrossRefs (c : TextChunk) : TextChunk := { c with crossReferences := [] }

/-- The id-erased chunk block one section contributes, independent of the
enclosing loop state. -/
def sectionBlock (sz : Nat) (ruleNum ruleTitle : Str) (indexTerms : List Str)
    (entry : Str × RuleSection) : List TextChunk :=
  (if entry.2.content.length > sz then
    (splitSectionIntoChunks sz entry.2.content 0 ruleNum ruleTitle entry.1 entry.2.title
      entry.2.path entry.2.pageNumber indexTerms).map eraseId
   else [eraseId (singleSectionChunkMk 0 ruleNum ruleTitle entry.1 entry.2 indexTerms)]) ++
  entry.2.subsections.map
    (fun sub => eraseId (subsectionChunkMk 0 ruleNum ruleTitle sub.1 sub.2 indexTerms))

/-- The id-erased chunk block one rule contributes. -/
def ruleBlock (sz : Nat) (entry : Str × GolfRuleHierarchy) : List TextChunk :=
  eraseId (ruleChunkMk 0 entry.1 entry.2) ::
    entry.2.sections.flatMap (sectionBlock sz entry.1 entry.2.title entry.2.indexTerms)

/- ============ processor.processDefinitions and its regex ============ -/

/-- Membership in the RE2 character class of letters, regex whitespace and
hyphen, from the definition-header pattern. -/
def isDefClass (c : Char) : Bool :=
  c.isUpper || c.isLower || isRegexSpace c || c == '-'

/-- Index of the last newline in a list, if any. -/
def lastNlIdx : Str → Option Nat
  | [] => none
  | c :: t =>
    match lastNlIdx t with
    | some m => some (m + 1)
    | none => if c = '\n' then some 0 else none

/-- Match the multiline-anchored definition-header pattern (an uppercase
letter, one or more letters/whitespace/hyphens, then a newline) at the current
position: the greedy character class backtracks to the last newline it
swallowed. Returns (full match, capture group, rest of input). -/
def defMatchAt (s : Str) : Option (Str × Str × Str) :=
  match s with
  | [] => none
  | c :: rest =>
    if c.isUpper then
      let run := rest.takeWhile isDefClass
      match lastNlIdx run with
      | some j =>
        if 1 ≤ j then
          let grp := c :: run.take j
          some (grp ++ ['\n'], grp, rest.drop (j + 1))
        else none
      | none => none
    else none

/-- All matches of the definition-header pattern with their start offsets
(Go regexp FindAllStringSubmatchIndex); the scanner advances one character at
a time, only attempting the pattern at line starts. -/
def defScan : Nat → Nat → Bool → Str → List (Nat × Str)
  | 0, _, _, _ => []
  | _ + 1, _, _, [] => []
  | fuel + 1, pos, atLS, c :: t =>
    if atLS then
      match defMatchAt (c :: t) with
      | some (full, grp, rest) => (pos, grp) :: defScan fuel (pos + full.length) true rest
      | none => defScan fuel (pos + 1) (c = '\n') t
    else defScan fuel (pos + 1) (c = '\n') t

/-- The chunk-emitting loop of processor.processDefinitions: each definition
spans from its header-match start to the next header-match start (or the end
of the text); ids are numbered from the local counter. -/
def defChunksLoop (text : Str) : Nat → List (Nat × Str) → List TextChunk
  | _, [] => []
  | cid, (s, grp) :: rest =>
    let e := match rest with
      | (s2, _) :: _ => s2
      | [] => text.length
    { id := cid, content := (text.drop s).take (e - s),
      metadata := { pageNumber := 0, sectionName := str "Definitions", title := trimSpace grp,
                    hierarchy := str "Definitions > " ++ trimSpace grp, subsection := [],
                    subsecTitle := [], chunkType := str "definition", parentRule := [] },
      embedding := [], crossReferences := [], indexTerms := [] } ::
      defChunksLoop text (cid + 1) rest

/-- processor.processDefinitions: note the chunk id counter restarts at 1,
independently of the counter used by createRuleBasedChunks. -/
def processDefinitions (text : Str) : List TextChunk :=
  if text = [] then []
  else defChunksLoop text 1 (defScan (text.length + 1) 0 true text)

/- ============ processor.extractCrossReferences and its regex ============ -/

/-- Match the cross-reference pattern (literal "Rule ", digits, optionally a
dot, digits and a lowercase letter) at the current position; returns
(full match, rest). -/
def tryMatchCrossRef (s : Str) : Option (Str × Str) :=
  match dropLit (str "Rule ") s with
  | none => none
  | some s1 =>
    let ds := s1.takeWhile Char.isDigit
    if ds = [] then none
    else
      let s2 := s1.dropWhile Char.isDigit
      let (opt, s3) :=
        match s2 with
        | '.' :: t =>
          let ds2 := t.takeWhile Char.isDigit
          if ds2 = [] then (([] : Str), s2)
          else
            match t.dropWhile Char.isDigit with
            | c :: t3 => if c.isLower then ('.' :: ds2 ++ [c], t3) else ('.' :: ds2, t.dropWhile Char.isDigit)
            | [] => ('.' :: ds2, ([] : Str))
        | _ => (([] : Str), s2)
      some (str "Rule " ++ ds ++ opt, s3)

/-- All matches of the cross-reference pattern, leftmost first,
non-overlapping. -/
def findAllCrossRefs : Nat → Str → List Str
  | 0, _ => []
  | _ + 1, [] => []
  | fuel + 1, c :: t =>
    match tryMatchCrossRef (c :: t) with
    | some (full, rest) => full :: findAllCrossRefs fuel rest
    | none => findAllCrossRefs fuel t

/-- processor.extractCrossReferences: per chunk, collect the pattern matches of
its content, deduplicate them (Go inserts them into a map and reads the map
back, in unspecified order; the model keeps a canonical deduplicated list,
which is adequate for the set-level properties stated about this pass), and
assign them to the cross-reference field. -/
def extractCrossReferences (chunks : List TextChunk) : List TextChunk :=
  chunks.map fun c =>
    { c with crossReferences := (findAllCrossRefs (c.content.length + 1) c.content).dedup }

/-- The chunk-list assembly of processor.ProcessPDF after hierarchy
extraction: rule-based chunks, then definition chunks, then the
cross-reference pass (PDF text extraction and the hierarchy/index parsing
stages feed this; they do not touch chunk ids). -/
def indexChunks (sz : Nat) (rules : List (Str × GolfRuleHierarchy))
    (definitionsText : Str) : List TextChunk :=
  extractCrossReferences (createRuleBasedChunks sz rules ++ processDefinitions definitionsText)

/- ================== processor (v2 build): text preprocessing =================== -/

/-- Header detection of processor.removeHeadersFooters: the trimmed line is
shorter than 50 bytes and mentions one of the boilerplate markers. -/
def isHeaderLine (line : Str) : Bool :=
  let l := trimSpace line
  decide (l.length < 50) &&
    (goContains l (str "Rules of Golf") || goContains l (str "Page") ||
     goContains l (str "Contents"))

/-- Footer detection of processor.removeHeadersFooters. -/
def isFooterLine (line : Str) : Bool :=
  let l := trimSpace line
  decide (l.length < 50) &&
    (goContains l (str "©") || goContains l (str "Page") ||
     goContains l (str "R&A") || goContains l (str "USGA"))

/-- The ascending header loop: for i below min(3, len), the last matching i
sets headerEnd to i+1. -/
def headerEndCalc (lines : List Str) : Nat :=
  (List.range (min 3 lines.length)).foldl
    (fun acc i => if isHeaderLine (lines.getD i []) then i + 1 else acc) 0

/-- The descending footer loop: for i from len-1 down to max(0, len-4), each
matching i overwrites footerStart, so the smallest matching i in range wins. -/
def footerStartCalc (lines : List Str) : Nat :=
  let lo := lines.length - 4
  ((List.range' lo (lines.length - lo)).reverse).foldl
    (fun acc i => if isFooterLine (lines.getD i []) then i else acc) lines.length

/-- Per-page body of processor.removeHeadersFooters; pages with fewer than 3
lines are dropped entirely. -/
def cleanPage (page : Str) : Option Str :=
  let lines := splitOnStr (str "\n") page
  if lines.length < 3 then none
  else
    let headerEnd := headerEndCalc lines
    let footerStart := footerStartCalc lines
    if headerEnd < footerStart then
      some (List.intercalate (str "\n") ((lines.drop headerEnd).take (footerStart - headerEnd)))
    else some page

/-- processor.removeHeadersFooters: the text is split at the form-feed page
sentinels, each page cleaned, and the cleaned pages are joined with a plain
newline (so no form feed survives this function). -/
def removeHeadersFooters (text : Str) : Str :=
  List.intercalate (str "\n") ((splitOnStr (str "\x0c") text).filterMap cleanPage)

/-- Regex replacement of every maximal whitespace run by a single space. -/
def collapseAux : Bool → Str → Str
  | _, [] => []
  | inSp, c :: t =>
    if isRegexSpace c then
      if inSp then collapseAux true t else ' ' :: collapseAux true t
    else c :: collapseAux false t

def collapseSpaces (s : Str) : Str := collapseAux false s

/-- Regex replacement of a newline, optional whitespace and further newlines by
exactly one blank line; the greedy run backtracks to the last newline it
covers. -/
def paraSepFix : Nat → Str → Str
  | 0, s => s
  | fuel + 1, s =>
    match s with
    | [] => []
    | c :: t =>
      if c = '\n' then
        let run := t.takeWhile isRegexSpace
        match lastNlIdx run with
        | some m => parSep ++ paraSepFix fuel (t.drop (m + 1))
        | none => c :: paraSepFix fuel t
      else c :: paraSepFix fuel t

/-- processor.normalizeWhitespace: collapse whitespace runs, then normalize
paragraph separators, then trim. -/
def normalizeWhitespace (s : Str) : Str :=
  let s1 := collapseSpaces s
  trimSpace (paraSepFix (s1.length + 1) s1)

/-- Match the rule-reference spacing pattern (Rule, whitespace, digits,
optional lowercase letter, optional dot-digits, optional lowercase letter) and
produce its normalized replacement; returns (replacement, rest of input). -/
def tryMatchRuleSpacing (s : Str) : Option (Str × Str) :=
  match dropLit (str "Rule") s with
  | none => none
  | some s1 =>
    let sp := s1.takeWhile isRegexSpace
    if sp = [] then none
    else
      let s2 := s1.dropWhile isRegexSpace
      let ds := s2.takeWhile Char.isDigit
      if ds = [] then none
      else
        let s3 := s2.dropWhile Char.isDigit
        let (g2, s4) :=
          match s3 with
          | c :: t => if c.isLower then (([c] : Str), t) else (([] : Str), s3)
          | [] => (([] : Str), s3)
        let (g3, s5) :=
          match s4 with
          | '.' :: t =>
            let ds2 := t.takeWhile Char.isDigit
            if ds2 = [] then (([] : Str), s4) else ('.' :: ds2, t.dropWhile Char.isDigit)
          | _ => (([] : Str), s4)
        let (g4, s6) :=
          match s5 with
          | c :: t => if c.isLower then (([c] : Str), t) else (([] : Str), s5)
          | [] => (([] : Str), s5)
        some (str "Rule " ++ ds ++ g2 ++ g3 ++ g4, s6)

/-- Scan-and-replace loop for the rule-reference spacing pattern. -/
def ruleSpacingReplace : Nat → Str → Str
  | 0, s => s
  | _ + 1, [] => []
  | fuel + 1, c :: t =>
    match tryMatchRuleSpacing (c :: t) with
    | some (rep, rest) => rep ++ ruleSpacingReplace fuel rest
    | none => c :: ruleSpacingReplace fuel t

/-- processor.normalizeRuleReferences: normalize reference spacing, then fix
two known OCR misspellings. -/
def normalizeRuleReferences (text : Str) : Str :=
  let t1 := ruleSpacingReplace (text.length + 1) text
  let t2 := replaceAllLit t1 (str "Ru1e") (str "Rule")
  replaceAllLit t2 (str "Ruie") (str "Rule")

/-- processor.expandGolfAbbreviations; Go iterates its abbreviation map in
unspecified order, the model applies the replacements in source listing order
(the patterns and replacements never overlap each other). -/
def expandGolfAbbreviations (text : Str) : Str :=
  let t1 := replaceAllLit text (str " R&A ") (str " Royal and Ancient ")
  let t2 := replaceAllLit t1 (str " USGA ") (str " United States Golf Association ")
  let t3 := replaceAllLit t2 (str " OB ") (str " out of bounds ")
  let t4 := replaceAllLit t3 (str " GUR ") (str " ground under repair ")
  let t5 := replaceAllLit t4 (str "TIO") (str "temporary immovable obstruction")
  replaceAllLit t5 (str "DQ") (str "disqualification")

/-- Match the diagram-reference pattern (DIAGRAM, whitespace, digits, optional
dot-digits, optional lowercase letter); returns (group, rest). -/
def tryMatchDiagram (s : Str) : Option (Str × Str) :=
  match dropLit (str "DIAGRAM") s with
  | none => none
  | some s1 =>
    let sp := s1.takeWhile isRegexSpace
    if sp = [] then none
    else
      let s2 := s1.dropWhile isRegexSpace
      let ds := s2.takeWhile Char.isDigit
      if ds = [] then none
      else
        let s3 := s2.dropWhile Char.isDigit
        let (g2, s4) :=
          match s3 with
          | '.' :: t =>
            let ds2 := t.takeWhile Char.isDigit
            if ds2 = [] then (([] : Str), s3) else ('.' :: ds2, t.dropWhile Char.isDigit)
          | _ => (([] : Str), s3)
        let (g3, s5) :=
          match s4 with
          | c :: t => if c.isLower then (([c] : Str), t) else (([] : Str), s4)
          | [] => (([] : Str), s4)
        some (ds ++ g2 ++ g3, s5)

/-- processor.handleDiagramReferences scan-and-replace loop. -/
def diagramReplace : Nat → Str → Str
  | 0, s => s
  | _ + 1, [] => []
  | fuel + 1, c :: t =>
    match tryMatchDiagram (c :: t) with
    | some (grp, rest) => str "[DIAGRAM_REF:" ++ grp ++ str "]" ++ diagramReplace fuel rest
    | none => c :: diagramReplace fuel t

def handleDiagramReferences (text : Str) : Str :=
  diagramReplace (text.length + 1) text

/-- processor.preprocessGolfRules (v2 build), in source order. -/
def preprocessGolfRules (text : Str) : Str :=
  handleDiagramReferences
    (expandGolfAbbreviations
      (normalizeRuleReferences
        (normalizeWhitespace
          (removeHeadersFooters text))))

/-- Number of pages delimited by the form-feed sentinel. -/
def countPages (text : Str) : Nat :=
  (splitOnStr (str "\x0c") text).length

/- ============== cmd/golfqa: query-time reference and term extraction ============== -/

/-- Match the query rule-reference pattern (Rule, whitespace, digits, optional
dot-digits, optional lowercase letter, optional parenthesized digits) at the
current position; returns (full match, first capture group, rest). This is the
pattern shared by cmd/golfqa extractRuleReferences and
database.QuerySimilarWithStructure. -/
def tryMatchQueryRef (s : Str) : Option (Str × Str × Str) :=
  match dropLit (str "Rule") s with
  | none => none
  | some s1 =>
    let sp := s1.takeWhile isRegexSpace
    if sp = [] then none
    else
      let s2 := s1.dropWhile isRegexSpace
      let ds := s2.takeWhile Char.isDigit
      if ds = [] then none
      else
        let s3 := s2.dropWhile Char.isDigit
        let (g2, s4) :=
          match s3 with
          | '.' :: t =>
            let ds2 := t.takeWhile Char.isDigit
            if ds2 = [] then (([] : Str), s3) else ('.' :: ds2, t.dropWhile Char.isDigit)
          | _ => (([] : Str), s3)
        let (g3, s5) :=
          match s4 with
          | c :: t => if c.isLower then (([c] : Str), t) else (([] : Str), s4)
          | [] => (([] : Str), s4)
        let (g4, s6) :=
          match s5 with
          | '(' :: t =>
            let ds3 := t.takeWhile Char.isDigit
            if ds3 = [] then (([] : Str), s5)
            else
              match t.dropWhile Char.isDigit with
              | ')' :: t2 => ('(' :: ds3 ++ [')'], t2)
              | _ => (([] : Str), s5)
          | _ => (([] : Str), s5)
        some (str "Rule" ++ sp ++ ds ++ g2 ++ g3 ++ g4, ds, s6)

/-- All matches of the query rule-reference pattern, leftmost first,
non-overlapping, as (full match, main rule number group) pairs. -/
def findAllQueryRefs : Nat → Str → List (Str × Str)
  | 0, _ => []
  | _ + 1, [] => []
  | fuel + 1, c :: t =>
    match tryMatchQueryRef (c :: t) with
    | some (full, g1, rest) => (full, g1) :: findAllQueryRefs fuel rest
    | none => findAllQueryRefs fuel t

/-- Per-match body of cmd/golfqa extractRuleReferences: the full match is
always appended; the synthesized bare main rule is appended only if not
already present. -/
def ruleRefStep (acc : List Str) (m : Str × Str) : List Str :=
  let acc1 := acc ++ [m.1]
  if m.2 ≠ [] then
    let mainRule := str "Rule " ++ m.2
    if mainRule ∈ acc1 then acc1 else acc1 ++ [mainRule]
  else acc1

/-- cmd/golfqa extractRuleReferences. -/
def extractRuleReferences (query : Str) : List Str :=
  (findAllQueryRefs (query.length + 1) query).foldl ruleRefStep []

/-- The fixed vocabulary of cmd/golfqa identifyGolfTerms, in source listing
order (Go iterates the map in unspecified order; only membership in the result
is stated about this function). -/
def golfTermPatterns : List (Str × Str) :=
  [(str "penalty area", str "penalty area"),
   (str "bunker", str "bunker"),
   (str "putting green", str "putting green"),
   (str "teeing area", str "teeing area"),
   (str "loose impediment", str "loose impediment"),
   (str "obstruction", str "obstruction"),
   (str "out of bounds", str "out of bounds"),
   (str "OB", str "out of bounds"),
   (str "unplayable", str "unplayable ball"),
   (str "stroke and distance", str "stroke-and-distance")]

/-- Go strings.ToLower, modeled on ASCII letters. -/
def lowerStr (s : Str) : Str := s.map Char.toLower

/-- cmd/golfqa identifyGolfTerms: the query is lowercased and each pattern is
looked up in the lowercased query by plain substring containment. -/
def identifyGolfTerms (query : Str) : List Str :=
  golfTermPatterns.foldl
    (fun terms pt => if goContains (lowerStr query) pt.1 then terms ++ [pt.2] else terms) []

/- ============== internal/database: similarity queries (model) ============== -/

/-- The reference list database.QuerySimilarWithStructure extracts from the
query text: only the full pattern matches, with no synthesized bare rule. -/
def structureRefs (query : Str) : List Str :=
  (findAllQueryRefs (query.length + 1) query).map Prod.fst

/-- The SQL restriction of database.QuerySimilarWithStructure: the row is kept
when its section column, parent-rule column or some member of its
cross-reference array equals one of the references. -/
def matchesRuleRefs (refs : List Str) (c : TextChunk) : Bool :=
  refs.any (fun r => r = c.metadata.sectionName) ||
  refs.any (fun r => r = c.metadata.parentRule) ||
  c.crossReferences.any (fun ref => refs.any (fun r => r = ref))

/-- A query embedding; the core never inspects its numeric contents. -/
abbrev Vec := List Int

/-- database.QuerySimilar over a table modeled in ascending distance order:
ORDER BY distance LIMIT n is take n. -/
def querySimilarModel (table : List TextChunk) (limit : Nat) : Except Str (List TextChunk) :=
  Except.ok (table.take limit)

/-- database.QuerySimilarWithStructure over the modeled table: extract the
rule references of the query; when any exist, restrict the table to matching
rows, rank by distance and truncate; otherwise fall back to plain
similarity. -/
def querySimilarWithStructureModel (table : List TextChunk) (query : Str)
    (limit : Nat) : Except Str (List TextChunk) :=
  let refs := structureRefs query
  if refs.length > 0 then Except.ok ((table.filter (matchesRuleRefs refs)).take limit)
  else querySimilarModel table limit

/-- Number of case-insensitive ILIKE term hits scored by
database.QuerySimilarWithTerms for one row. -/
def termScore (terms : List Str) (c : TextChunk) : Nat :=
  (terms.filter (fun t => goContains (lowerStr c.content) (lowerStr t))).length

/-- database.QuerySimilarWithTerms over the modeled table: stable sort by
descending term score (ties keep the ascending distance order), truncate. -/
def querySimilarWithTermsModel (table : List TextChunk) (terms : List Str)
    (limit : Nat) : Except Str (List TextChunk) :=
  Except.ok (((table.mergeSort
    (fun a b => termScore terms b ≤ termScore terms a))).take limit)

/- ============== cmd/golfqa processQuery ============== -/

deriving instance DecidableEq for Except

/-- The fallible collaborator calls available to processQuery; a concrete
database gives one implementation, an unreachable or failing database another. -/
structure Store where
  queryWithStructure : Vec → Str → Nat → Except Str (List TextChunk)
  queryWithTerms : Vec → List Str → Nat → Except Str (List TextChunk)
  querySimilarFn : Vec → Nat → Except Str (List TextChunk)

/-- The Store a healthy database with the given (distance-ordered) table
implements. -/
def modelStore (table : List TextChunk) : Store :=
  { queryWithStructure := fun _ query limit => querySimilarWithStructureModel table query limit,
    queryWithTerms := fun _ terms limit => querySimilarWithTermsModel table terms limit,
    querySimilarFn := fun _ limit => querySimilarModel table limit }

def apos : Char := Char.ofNat 39

/-- The fixed response cmd/golfqa processQuery returns when the chunk list is
empty (its wall-clock timestamp is omitted from the model). -/
def noContextResponse : Response :=
  { answer := str "I couldn" ++ [apos] ++
      str "t find any relevant information in the golf rules to answer your question.",
    sources := [] }

/-- The strategy selection of cmd/golfqa processQuery. -/
def routedSearch (store : Store) (queryRuleRefs golfTerms : List Str) (ruleFilter : Str)
    (emb : Vec) (query : Str) (limit : Nat) : Except Str (List TextChunk) :=
  if queryRuleRefs.length > 0 ∨ ruleFilter ≠ [] then store.queryWithStructure emb query limit
  else if golfTerms.length > 0 then store.queryWithTerms emb golfTerms limit
  else store.querySimilarFn emb limit

/-- cmd/golfqa processQuery. The Go code assigns the search error to err but
never tests it before the len(chunks) == 0 check (chunks is nil on error), so
the model binds chunks to the empty list on a search error, exactly as the
code does. -/
def processQuery (store : Store) (embedText : Str → Except Str Vec)
    (llmAnswer : Str → List TextChunk → Except Str Response)
    (query : Str) (limit : Nat) (ruleFilter : Str) : Except Str Response :=
  let queryRuleRefs := extractRuleReferences query
  let golfTerms := identifyGolfTerms query
  match embedText query with
  | Except.error e => Except.error (str "failed to create query embedding: " ++ e)
  | Except.ok emb =>
    let chunks :=
      match routedSearch store queryRuleRefs golfTerms ruleFilter emb query limit with
      | Except.ok cs => cs
      | Except.error _ => []
    if chunks.length = 0 then Except.ok noContextResponse
    else
      match llmAnswer query chunks with
      | Except.error e => Except.error (str "failed to generate answer: " ++ e)
      | Except.ok r => Except.ok r

/- ============== concrete inputs used by witnesses and counterexamples ============== -/

/-- Two pages of three ordinary lines each, separated by the form-feed page
sentinel. -/
def twoPageText : Str := str "aa\nbb\ncc\x0cdd\nee\nff"

/-- A definitions region with one definition header. -/
def defsText0 : Str := str "Bunker\nA bunker is a sand area\n"

/-- A rule with no sections. -/
def rule0 : GolfRuleHierarchy :=
  { ruleNumber := str "Rule 1", title := str "Tee", pageNumber := 1,
    sections := [], path := str "Rule 1", indexTerms := [] }

/-- A second rule with no sections. -/
def rule1 : GolfRuleHierarchy :=
  { ruleNumber := str "Rule 2", title := str "Clubs", pageNumber := 2,
    sections := [], path := str "Rule 2", indexTerms := [] }

/-- Section content of three paragraphs of 80, 80 and 10 characters (total
174): at chunk size 150 the first two paragraphs are accumulated together
because the separator bytes escape the size check. -/
def content5 : Str :=
  List.replicate 80 'a' ++ parSep ++ List.replicate 80 'b' ++ parSep ++ List.replicate 10 'c'

/-- A section holding content5. -/
def section5 : RuleSection :=
  { number := str "1.1", title := str "S", pageNumber := 1, subsections := [],
    content := content5, path := str "Rule 1 > 1.1" }

/-- A rule holding section5. -/
def rule5 : GolfRuleHierarchy :=
  { ruleNumber := str "Rule 1", title := str "T", pageNumber := 1,
    sections := [(str "1.1", section5)], path := str "Rule 1", indexTerms := [] }

/-- Uniform section content: three paragraphs of 99 characters each, total
exactly 301 = 2 x 150 + 1 characters. -/
def content9 : Str :=
  List.replicate 99 'a' ++ parSep ++ List.replicate 99 'b' ++ parSep ++ List.replicate 99 'c'

/-- A small two-paragraph content for the chunk-size witness. -/
def contentW : Str := str "aa" ++ parSep ++ str "bb"

/-- A stored chunk structurally tied to Rule 5 only. -/
def chunkR5 : TextChunk :=
  { id := 1, content := str "keep clubs",
    metadata := { pageNumber := 3, sectionName := str "Rule 5", title := str "Clubs",
                  hierarchy := str "Rule 5", subsection := [], subsecTitle := [],
                  chunkType := str "rule", parentRule := str "Rule 5" },
    embedding := [], crossReferences := [], indexTerms := [] }

/-- A one-row table for the retrieval counterexample. -/
def table0 : List TextChunk := [chunkR5]

/-- A question naming Rule 14.3. -/
def query143 : Str := str "What about Rule 14.3?"

/-- An embedder that always succeeds. -/
def okEmbed : Str → Except Str Vec := fun _ => Except.ok []

/-- A generation collaborator that answers from whatever chunks it is
handed. -/
def okLLM : Str → List TextChunk → Except Str Response :=
  fun _ cs => Except.ok { answer := str "ans", sources := cs }

/-- A store whose every search fails, as when the database is unreachable. -/
def failingStore : Store :=
  { queryWithStructure := fun _ _ _ => Except.error (str "connection refused"),
    queryWithTerms := fun _ _ _ => Except.error (str "connection refused"),
    querySimilarFn := fun _ _ => Except.error (str "connection refused") }

/-- A chunk list for the cross-reference witness. -/
def chunksX : List TextChunk :=
  [{ dummyChunk with id := 1, content := str "see Rule 14.3 and Rule 14.3 and Rule 2" }]

/-- Occurrence count of a value in a list of model strings (kept separate from
the library count to stay independent of boolean-equality instances). -/
def cnt (v : Str) : List Str → Nat
  | [] => 0
  | x :: t => (if x = v then 1 else 0) + cnt v t

/-- Invariant of the section-splitting loop, relative to a chunk-length bound
and the paragraph list of the section: every emitted chunk is within the
bound, and the buffer, when nonempty, is within the bound and ends with a full
paragraph of the section (either it is one paragraph, or a paragraph follows
its last separator). -/
def SplitInv (B : Nat) (paras : List Str) (st : SplitAcc) : Prop :=
  (∀ c ∈ st.chunks, c.content.length ≤ B) ∧
  (st.buffer = [] ∨
    (st.buffer.length ≤ B ∧
      ((∃ p, p ∈ paras ∧ st.buffer = p) ∨
       (∃ z p, p ∈ paras ∧ st.buffer = z ++ (parSep ++ p)))))

/- ===================== supporting lemmas ===================== -/

theorem breakOn_decomp (sep : Str) :
    ∀ s pre post, breakOn sep s = some (pre, post) → s = pre ++ sep ++ post := by
  intro s
  induction s with
  | nil => intro pre post h; simp [breakOn] at h
  | cons c cs ih =>
    intro pre post h
    unfold breakOn at h
    by_cases hp : sep <+: (c :: cs)
    · rw [if_pos hp] at h
      obtain ⟨t, ht⟩ := hp
      have hdrop : (c :: cs).drop sep.length = t := by
        rw [← ht]; exact List.drop_left sep t
      rw [hdrop] at h
      injection h with h1
      injection h1 with hpre hpost
      subst hpre; subst hpost
      simpa using ht.symm
    · rw [if_neg hp] at h
      cases hb : breakOn sep cs with
      | none => rw [hb] at h; exact absurd h (by simp)
      | some pq =>
        obtain ⟨p, q⟩ := pq
        rw [hb] at h
        injection h with h1
        injection h1 with hpre hpost
        subst hpre; subst hpost
        have := ih p q hb
        simp [this]

theorem breakOn_post_lt (sep : Str) (hsep : sep ≠ []) (s pre post : Str)
    (h : breakOn sep s = some (pre, post)) : post.length < s.length := by
  have hd := breakOn_decomp sep s pre post h
  have : s.length = pre.length + sep.length + post.length := by
    rw [hd]; simp [List.length_append]; omega
  have hp : 0 < sep.length := List.length_pos.mpr hsep
  omega

theorem occurs_of_append (sep : Str) (hsep : sep ≠ []) :
    ∀ x y : Str, occurs sep (x ++ (sep ++ y)) = true := by
  intro x
  induction x with
  | nil =>
    intro y
    have hne : sep ++ y ≠ [] := by
      intro hc; exact hsep (List.append_eq_nil.mp hc).1
    obtain ⟨c, cs, hcs⟩ := List.exists_cons_of_ne_nil hne
    simp only [List.nil_append]
    rw [occurs, hcs, breakOn]
    have hp : sep <+: (c :: cs) := by rw [← hcs]; exact ⟨y, rfl⟩
    rw [if_pos hp]
    rfl
  | cons c cs ih =>
    intro y
    rw [occurs, List.cons_append, breakOn]
    by_cases hp : sep <+: (c :: (cs ++ (sep ++ y)))
    · rw [if_pos hp]; rfl
    · rw [if_neg hp]
      have := ih y
      rw [occurs] at this
      cases hb : breakOn sep (cs ++ (sep ++ y)) with
      | none => rw [hb] at this; simp at this
      | some pq => obtain ⟨p, q⟩ := pq; rfl

theorem splitFuel_ne_nil (sep : Str) (fuel : Nat) (s : Str) :
    splitFuel sep fuel s ≠ [] := by
  cases fuel with
  | zero => simp [splitFuel]
  | succ n =>
    rw [splitFuel]
    cases breakOn sep s with
    | none => simp
    | some pq => obtain ⟨p, q⟩ := pq; simp

theorem getLastD_irrel {α : Type} (l : List α) (hne : l ≠ []) (d₁ d₂ : α) :
    l.getLastD d₁ = l.getLastD d₂ := by
  cases l with
  | nil => exact absurd rfl hne
  | cons a t => simp [List.getLastD]

theorem splitFuel_last_spec (sep : Str) (hsep : sep ≠ []) :
    ∀ fuel s, s.length < fuel →
      ((splitFuel sep fuel s).getLastD [] <:+ s) ∧
      occurs sep ((splitFuel sep fuel s).getLastD []) = false := by
  intro fuel
  induction fuel with
  | zero => intro s hs; omega
  | succ n ih =>
    intro s hs
    rw [splitFuel]
    cases hb : breakOn sep s with
    | none =>
      constructor
      · simp
      · simpa [occurs] using congrArg Option.isSome hb
    | some pq =>
      obtain ⟨p, q⟩ := pq
      have hq : q.length < n := by
        have h1 := breakOn_post_lt sep hsep s p q hb
        omega
      have hrec := ih q hq
      have hne := splitFuel_ne_nil sep n q
      have hlast : (p :: splitFuel sep n q).getLastD [] = (splitFuel sep n q).getLastD [] := by
        cases hsp : splitFuel sep n q with
        | nil => exact absurd hsp hne
        | cons a t => simp [List.getLastD]
      rw [hlast]
      refine ⟨?_, hrec.2⟩
      have hsuf : q <:+ s := by
        rw [breakOn_decomp sep s p q hb]
        exact ⟨p ++ sep, by simp⟩
      exact hrec.1.trans hsuf

/-- A separator-free list that is a suffix of `z ++ (sep ++ p)` cannot reach
past the last copy of the separator: its length is at most
`p.length + sep.length - 1`. -/
theorem suffix_occursFree_length_le (sep z p t : Str) (hsep : sep ≠ [])
    (hsuf : t <:+ z ++ (sep ++ p)) (hfree : occurs sep t = false) :
    t.length + 1 ≤ p.length + sep.length := by
  by_contra hc
  push_neg at hc
  have hlen : (sep ++ p).length ≤ t.length := by
    simp only [List.length_append] at hc ⊢
    omega
  have hsuf2 : (sep ++ p) <:+ z ++ (sep ++ p) := ⟨z, rfl⟩
  have hsp : (sep ++ p) <:+ t := List.suffix_of_suffix_length_le hsuf2 hsuf hlen
  obtain ⟨u, hu⟩ := hsp
  have : occurs sep t = true := by
    rw [← hu]; exact occurs_of_append sep hsep u p
  rw [this] at hfree
  exact absurd hfree (by simp)

theorem foldl_inv {α σ : Type _} (P : σ → Prop) (f : σ → α → σ) :
    ∀ (l : List α) (s : σ), P s → (∀ s' a, a ∈ l → P s' → P (f s' a)) → P (l.foldl f s) := by
  intro l
  induction l with
  | nil => intro s hs _; simpa using hs
  | cons a t ih =>
    intro s hs hstep
    rw [List.foldl_cons]
    exact ih (f s a) (hstep s a (by simp) hs)
      (fun s' b hb hs' => hstep s' b (by simp [hb]) hs')

theorem foldl_rel {α σ τ : Type _} (R : σ → τ → Prop) (f : σ → α → σ) (g : τ → α → τ) :
    ∀ (l : List α) (s : σ) (t : τ), R s t →
      (∀ s' t' a, a ∈ l → R s' t' → R (f s' a) (g t' a)) → R (l.foldl f s) (l.foldl g t) := by
  intro l
  induction l with
  | nil => intro s t hst _; simpa using hst
  | cons a m ih =>
    intro s t hst hstep
    rw [List.foldl_cons, List.foldl_cons]
    exact ih (f s a) (g t a) (hstep s t a (by simp) hst)
      (fun s' t' b hb hr => hstep s' t' b (by simp [hb]) hr)

/- ===================== claims ===================== -/

/-- C1: the claim that processQuery surfaces a failed search call to its
caller is refuted by the code: the error returned by the chosen search is
assigned but never tested, the nil chunk slice falls into the
`len(chunks) == 0` branch, and processQuery returns the successful
no-relevant-context response in place of the storage error. -/
theorem processQuery_swallows_search_error (store : Store)
    (embedText : Str → Except Str Vec)
    (llmAnswer : Str → List TextChunk → Except Str Response) (query : Str) (limit : Nat)
    (ruleFilter : Str) (emb : Vec) (e : Str)
    (hemb : embedText query = Except.ok emb)
    (herr : routedSearch store (extractRuleReferences query) (identifyGolfTerms query)
      ruleFilter emb query limit = Except.error e) :
    processQuery store embedText llmAnswer query limit ruleFilter =
      Except.ok noContextResponse := by
  simp [processQuery, hemb, herr]

/-- C1 witness: a concrete unreachable database under a question naming a
rule; the structure-prioritized search fails with a connection error and
processQuery nevertheless answers successfully with the no-context
response. -/
theorem processQuery_swallows_search_error_witness :
    processQuery failingStore okEmbed okLLM query143 5 [] = Except.ok noContextResponse :=
  processQuery_swallows_search_error failingStore okEmbed okLLM query143 5 [] []
    (str "connection refused") rfl (by decide)

/-- C2: the claim that chunk ids form the strictly increasing sequence
1, 2, 3, ... across a whole indexing run is refuted: with one rule and one
definition, the rule chunk and the definition chunk both carry id 1, because
processDefinitions restarts its id counter at 1 even though its chunks are
appended after the rule-based chunks. -/
theorem indexChunks_ids_not_sequential :
    (indexChunks MAX_CHUNK_SIZE [(str "Rule 1", rule0)] defsText0).map TextChunk.id = [1, 1] ∧
    [1, 1] ≠ List.range' 1 2 := by
  exact ⟨by decide, by decide⟩

/-- C3: the claim that preprocessing preserves the page-break sentinel is
refuted: on a two-page input removeHeadersFooters joins the cleaned pages
with a plain newline, so the preprocessed text has a single page where the
input had two. -/
theorem preprocess_drops_page_sentinel :
    countPages twoPageText = 2 ∧ countPages (preprocessGolfRules twoPageText) = 1 := by
  exact ⟨by decide, by decide⟩

/-- C4 counterexample: two enumerations of the same two-rule map (Go map
range order is unspecified) produce different chunk lists, refuting the
claimed run-to-run determinism: the code iterates the map directly rather
than by sorted rule key. -/
theorem createRuleBasedChunks_order_sensitive :
    List.Perm [(str "Rule 1", rule0), (str "Rule 2", rule1)]
      [(str "Rule 2", rule1), (str "Rule 1", rule0)] ∧
    createRuleBasedChunks MAX_CHUNK_SIZE [(str "Rule 1", rule0), (str "Rule 2", rule1)] ≠
      createRuleBasedChunks MAX_CHUNK_SIZE [(str "Rule 2", rule1), (str "Rule 1", rule0)] := by
  exact ⟨by decide, by decide⟩

/-- C8: the claim that domain-term extraction is case-insensitive (and that a
question containing OB yields the synonym) is refuted by the code: the query
is lowercased but the table pattern is the uppercase OB, which can never
occur in a lowercased string, so the question extracts no terms at all. -/
theorem identifyGolfTerms_misses_uppercase_OB :
    goContains (str "Is my ball OB?") (str "OB") = true ∧
    identifyGolfTerms (str "Is my ball OB?") = [] := by
  exact ⟨by decide, by decide⟩

set_option maxRecDepth 100000 in
/-- C9 counterexample: a section of exactly 2 x MAX + 1 characters (MAX
configured as 150) made of three uniform 99-character blank-line-separated
paragraphs is split into 2 chunks, not the claimed at-least-3. -/
theorem uniform_2max_plus_one_section_two_chunks :
    content9.length = 2 * 150 + 1 ∧
    (∀ p ∈ splitOnStr parSep content9, p.length = 99) ∧
    (splitSectionIntoChunks 150 content9 1 (str "Rule 1") (str "T") (str "1.1") (str "S")
      (str "Rule 1 > 1.1") 1 []).length = 2 := by
  exact ⟨by decide, by decide, by decide⟩

set_option maxRecDepth 100000 in
/-- C5 counterexample: at configured maximum 150, a section of paragraphs of
80, 80 and 10 characters produces (behind the rule header chunk) a section
chunk of 162 characters, above the maximum, whose content contains a
paragraph separator and hence is not a single oversized paragraph. -/
theorem split_emits_overlong_multiparagraph_chunk :
    (createRuleBasedChunks 150 [(str "Rule 1", rule5)]).length = 3 ∧
    ((createRuleBasedChunks 150 [(str "Rule 1", rule5)]).getD 1 dummyChunk).content.length = 162 ∧
    occurs parSep ((createRuleBasedChunks 150 [(str "Rule 1", rule5)]).getD 1 dummyChunk).content
      = true := by
  exact ⟨by decide, by decide, by decide⟩

set_option maxRecDepth 40000 in
/-- C6 counterexample: the claimed fallback to plain similarity search does
not exist. With a one-row store whose row is tied to Rule 5 only, the
question about Rule 14.3 selects the structure-restricted search, the
restriction is empty, and processQuery answers with the fixed no-context
response, while the plain similarity path over all chunks would have handed
the row to the generator and produced a source-bearing answer. -/
theorem rule143_no_plain_similarity_fallback :
    processQuery (modelStore table0) okEmbed okLLM query143 5 [] =
      Except.ok noContextResponse ∧
    okLLM query143 (table0.take 5) =
      Except.ok { answer := str "ans", sources := table0 } ∧
    ({ answer := str "ans", sources := table0 } : Response) ≠ noContextResponse := by
  exact ⟨by decide, by decide, by decide⟩

/-- C7: for every chunk collection, the cross-reference pass assigns each
chunk a duplicate-free reference set, modifies nothing but the
cross-reference field, and is idempotent. -/
theorem extractCrossReferences_dedup_pure_idempotent (chunks : List TextChunk) :
    (∀ c ∈ extractCrossReferences chunks, c.crossReferences.Nodup) ∧
    (extractCrossReferences chunks).map eraseCrossRefs = chunks.map eraseCrossRefs ∧
    extractCrossReferences (extractCrossReferences chunks) = extractCrossReferences chunks := by
  refine ⟨?_, ?_, ?_⟩
  · intro c hc
    rw [extractCrossReferences] at hc
    obtain ⟨c0, _, rfl⟩ := List.mem_map.mp hc
    exact List.nodup_dedup _
  · rw [extractCrossReferences, List.map_map]
    exact List.map_congr_left (fun a _ => rfl)
  · simp only [extractCrossReferences, List.map_map]
    exact List.map_congr_left (fun a _ => rfl)

/-- C7 witness: the pass applied to a concrete chunk whose content repeats a
reference. -/
theorem extractCrossReferences_dedup_pure_idempotent_witness :
    ((extractCrossReferences chunksX).getD 0 dummyChunk).crossReferences.Nodup ∧
    extractCrossReferences (extractCrossReferences chunksX) = extractCrossReferences chunksX := by
  constructor
  · exact (extractCrossReferences_dedup_pure_idempotent chunksX).1 _ (by decide)
  · exact (extractCrossReferences_dedup_pure_idempotent chunksX).2.2

theorem cnt_append (v : Str) (l1 l2 : List Str) :
    cnt v (l1 ++ l2) = cnt v l1 + cnt v l2 := by
  induction l1 with
  | nil => simp [cnt]
  | cons x t ih => simp [cnt, ih]; omega

theorem cnt_eq_zero_of_not_mem (v : Str) (l : List Str) (hv : v ∉ l) : cnt v l = 0 := by
  induction l with
  | nil => rfl
  | cons x t ih =>
    have hx : x ≠ v := fun hc => hv (by simp [hc])
    have ht : v ∉ t := fun hc => hv (by simp [hc])
    simp [cnt, hx, ih ht]

theorem ruleRefStep_cnt_lower (acc : List Str) (m : Str × Str) (v : Str) :
    cnt v acc + (if m.1 = v then 1 else 0) ≤ cnt v (ruleRefStep acc m) := by
  rw [ruleRefStep]
  by_cases h2 : m.2 ≠ []
  · simp only [if_pos h2]
    by_cases hm : str "Rule " ++ m.2 ∈ acc ++ [m.1]
    · simp only [if_pos hm, cnt_append]
      simp [cnt]
    · simp only [if_neg hm, cnt_append]
      simp [cnt]
  · simp only [if_neg h2, cnt_append]
    simp [cnt]

theorem ruleRefStep_cnt_upper (acc : List Str) (m : Str × Str) (v : Str) :
    cnt v (ruleRefStep acc m) + (if v ∈ ruleRefStep acc m then 0 else 1) ≤
      cnt v acc + (if m.1 = v then 1 else 0) + (if v ∈ acc then 0 else 1) := by
  rw [ruleRefStep]
  by_cases h2 : m.2 ≠ []
  · simp only [if_pos h2]
    by_cases hm : str "Rule " ++ m.2 ∈ acc ++ [m.1]
    · simp only [if_pos hm, cnt_append]
      by_cases hv : v ∈ acc
      · have hv' : v ∈ acc ++ [m.1] := by simp [hv]
        simp [cnt, hv, hv']
      · by_cases hv1 : m.1 = v
        · have hv' : v ∈ acc ++ [m.1] := by simp [hv1]
          simp [cnt, hv, hv', hv1]
        · have hv' : v ∉ acc ++ [m.1] := by
            simp only [List.mem_append, List.mem_singleton]
            intro hc
            rcases hc with hc | hc
            · exact hv hc
            · exact hv1 hc.symm
          have hcnt : cnt v acc = 0 := cnt_eq_zero_of_not_mem v acc hv
          simp [cnt, hv, hv', hv1, hcnt]
    · simp only [if_neg hm, cnt_append]
      by_cases hvm : str "Rule " ++ m.2 = v
      · have hva : v ∉ acc := fun hc => hm (by
          simp only [List.mem_append, List.mem_singleton]
          exact Or.inl (hvm ▸ hc))
        have hv1 : m.1 ≠ v := fun hc => hm (by
          simp only [List.mem_append, List.mem_singleton]
          exact Or.inr (hvm.trans hc.symm))
        have hcnt : cnt v acc = 0 := cnt_eq_zero_of_not_mem v acc hva
        have hmem : v ∈ (acc ++ [m.1]) ++ [str "Rule " ++ m.2] := by simp [hvm]
        simp [cnt, hva, hv1, hvm, hcnt, hmem]
      · by_cases hv : v ∈ acc
        · have hv' : v ∈ (acc ++ [m.1]) ++ [str "Rule " ++ m.2] := by simp [hv]
          simp [cnt, hv, hv', hvm]
        · by_cases hv1 : m.1 = v
          · have hv' : v ∈ (acc ++ [m.1]) ++ [str "Rule " ++ m.2] := by simp [hv1]
            simp [cnt, hv, hv', hv1, hvm]
          · have hv' : v ∉ (acc ++ [m.1]) ++ [str "Rule " ++ m.2] := by
              simp only [List.mem_append, List.mem_singleton]
              intro hc
              rcases hc with (hc | hc) | hc
              · exact hv hc
              · exact hv1 hc.symm
              · exact hvm hc.symm
            have hcnt : cnt v acc = 0 := cnt_eq_zero_of_not_mem v acc hv
            simp only [cnt, hv, hv', hv1, hvm, hcnt, if_neg, not_false_iff]
            simp [hv1, hvm]
  · simp only [if_neg h2, cnt_append]
    by_cases hv : v ∈ acc
    · have hv' : v ∈ acc ++ [m.1] := by simp [hv]
      simp [cnt, hv, hv']
    · by_cases hv1 : m.1 = v
      · have hv' : v ∈ acc ++ [m.1] := by simp [hv1]
        simp [cnt, hv, hv', hv1]
      · have hv' : v ∉ acc ++ [m.1] := by
          simp only [List.mem_append, List.mem_singleton]
          intro hc
          rcases hc with hc | hc
          · exact hv hc
          · exact hv1 hc.symm
        have hcnt : cnt v acc = 0 := cnt_eq_zero_of_not_mem v acc hv
        simp [cnt, hv, hv', hv1, hcnt]

theorem ruleRef_fold_cnt_lower (v : Str) :
    ∀ (ms : List (Str × Str)) (acc : List Str),
      cnt v acc + cnt v (ms.map Prod.fst) ≤ cnt v (ms.foldl ruleRefStep acc) := by
  intro ms
  induction ms with
  | nil => intro acc; simp [cnt]
  | cons m rest ih =>
    intro acc
    rw [List.foldl_cons, List.map_cons]
    have h1 := ih (ruleRefStep acc m)
    have h2 := ruleRefStep_cnt_lower acc m v
    simp only [cnt] at h1 h2 ⊢
    by_cases hv1 : m.1 = v
    · simp only [if_pos hv1] at h2 ⊢; omega
    · simp only [if_neg hv1] at h2 ⊢; omega

theorem ruleRef_fold_cnt_upper (v : Str) :
    ∀ (ms : List (Str × Str)) (acc : List Str),
      cnt v (ms.foldl ruleRefStep acc) ≤
        cnt v acc + cnt v (ms.map Prod.fst) + (if v ∈ acc then 0 else 1) := by
  intro ms
  induction ms with
  | nil => intro acc; by_cases hv : v ∈ acc <;> simp [cnt, hv]
  | cons m rest ih =>
    intro acc
    rw [List.foldl_cons, List.map_cons]
    have h1 := ih (ruleRefStep acc m)
    have h2 := ruleRefStep_cnt_upper acc m v
    simp only [cnt] at h1 h2 ⊢
    by_cases hv1 : m.1 = v <;> by_cases hra : v ∈ ruleRefStep acc m <;>
        by_cases hva : v ∈ acc <;>
      simp only [if_pos, if_neg, hv1, hra, hva, not_false_iff] at h1 h2 ⊢ <;> omega

theorem splitStep_flush (sz : Nat) (rn rt sn sT pa : Str) (pg : Nat) (it : List Str)
    (np : Nat) (s : SplitAcc) (para : Str)
    (hcond : s.buffer.length + para.length > sz ∧ s.buffer.length > MIN_CHUNK_SIZE) :
    splitStep sz rn rt sn sT pa pg it np s para =
      ⟨s.chunks ++ [sectionChunkMk s.cid s.buffer rn rt sn sT pa pg it], s.cid + 1,
        if (if np > 1 then
              (if (getLastParagraph s.buffer).length > 0 then
                getLastParagraph s.buffer ++ parSep else [])
            else []).length > 0 then
          (if np > 1 then
              (if (getLastParagraph s.buffer).length > 0 then
                getLastParagraph s.buffer ++ parSep else [])
            else []) ++ parSep ++ para
        else para⟩ := by
  rw [splitStep]
  simp only [if_pos hcond, List.getLastD_concat]
  have hcontent : (sectionChunkMk s.cid s.buffer rn rt sn sT pa pg it).content = s.buffer := rfl
  have hlen : (s.chunks ++ [sectionChunkMk s.cid s.buffer rn rt sn sT pa pg it]).length > 0 := by
    simp
  by_cases hnp : np > 1
  · simp only [hcontent, if_pos (And.intro hlen hnp), if_pos hnp]
  · have hneg : ¬((s.chunks ++ [sectionChunkMk s.cid s.buffer rn rt sn sT pa pg it]).length > 0
        ∧ np > 1) := fun hco => hnp hco.2
    simp only [hcontent, if_neg hneg, if_neg hnp, List.length_nil, gt_iff_lt,
      Nat.lt_irrefl, if_false]

theorem splitStep_noflush (sz : Nat) (rn rt sn sT pa : Str) (pg : Nat) (it : List Str)
    (np : Nat) (s : SplitAcc) (para : Str)
    (hcond : ¬(s.buffer.length + para.length > sz ∧ s.buffer.length > MIN_CHUNK_SIZE)) :
    splitStep sz rn rt sn sT pa pg it np s para =
      ⟨s.chunks, s.cid, if s.buffer.length > 0 then s.buffer ++ parSep ++ para else para⟩ := by
  rw [splitStep]
  simp only [if_neg hcond]

theorem splitStep_rel (sz : Nat) (rn rt sn sT pa : Str) (pg : Nat) (it : List Str) (np : Nat)
    (para : Str) (s t : SplitAcc)
    (h : s.buffer = t.buffer ∧ s.chunks.map eraseId = t.chunks.map eraseId) :
    (splitStep sz rn rt sn sT pa pg it np s para).buffer =
        (splitStep sz rn rt sn sT pa pg it np t para).buffer ∧
      (splitStep sz rn rt sn sT pa pg it np s para).chunks.map eraseId =
        (splitStep sz rn rt sn sT pa pg it np t para).chunks.map eraseId := by
  obtain ⟨hb, hc⟩ := h
  by_cases hcond : s.buffer.length + para.length > sz ∧ s.buffer.length > MIN_CHUNK_SIZE
  · have hcond' : t.buffer.length + para.length > sz ∧ t.buffer.length > MIN_CHUNK_SIZE := by
      rw [← hb]; exact hcond
    rw [splitStep_flush sz rn rt sn sT pa pg it np s para hcond,
      splitStep_flush sz rn rt sn sT pa pg it np t para hcond']
    constructor
    · simp only [hb]
    · simp only [List.map_append, List.map_cons, List.map_nil, hc]
      have : eraseId (sectionChunkMk s.cid s.buffer rn rt sn sT pa pg it) =
          eraseId (sectionChunkMk t.cid t.buffer rn rt sn sT pa pg it) := by
        rw [hb]
        rfl
      rw [this]
  · have hcond' : ¬(t.buffer.length + para.length > sz ∧ t.buffer.length > MIN_CHUNK_SIZE) := by
      rw [← hb]; exact hcond
    rw [splitStep_noflush sz rn rt sn sT pa pg it np s para hcond,
      splitStep_noflush sz rn rt sn sT pa pg it np t para hcond']
    exact ⟨by simp only [hb], by simp only [hc]⟩

theorem splitSectionIntoChunks_eraseId_cid (sz : Nat) (content : Str) (cid1 cid2 : Nat)
    (rn rt sn sT pa : Str) (pg : Nat) (it : List Str) :
    (splitSectionIntoChunks sz content cid1 rn rt sn sT pa pg it).map eraseId =
      (splitSectionIntoChunks sz content cid2 rn rt sn sT pa pg it).map eraseId := by
  rw [splitSectionIntoChunks, splitSectionIntoChunks]
  have hrel := foldl_rel
    (fun (s t : SplitAcc) => s.buffer = t.buffer ∧ s.chunks.map eraseId = t.chunks.map eraseId)
    (splitStep sz rn rt sn sT pa pg it (splitOnStr parSep content).length)
    (splitStep sz rn rt sn sT pa pg it (splitOnStr parSep content).length)
    (splitOnStr parSep content) ⟨[], cid1, []⟩ ⟨[], cid2, []⟩ ⟨rfl, rfl⟩
    (fun s' t' a _ hr => splitStep_rel sz rn rt sn sT pa pg it _ a s' t' hr)
  obtain ⟨hb, hc⟩ := hrel
  by_cases hfin :
      ((splitOnStr parSep content).foldl
        (splitStep sz rn rt sn sT pa pg it (splitOnStr parSep content).length)
        ⟨[], cid1, []⟩).buffer.length > 0
  · have hfin' := hb ▸ hfin
    simp only [if_pos hfin, if_pos hfin', List.map_append, hc, hb]
    simp only [List.map_cons, List.map_nil]
    rfl
  · have hfin' := hb ▸ hfin
    simp only [if_neg hfin, if_neg hfin', hc]

theorem subsFold_erase (rn rt : Str) (it : List Str) :
    ∀ (subs : List (Str × RuleSubsection)) (st : List TextChunk × Nat),
      ((subs.foldl (subsectionStep rn rt it) st).1).map eraseId =
        st.1.map eraseId ++
          subs.map (fun sub => eraseId (subsectionChunkMk 0 rn rt sub.1 sub.2 it)) := by
  intro subs
  induction subs with
  | nil => intro st; simp
  | cons sub rest ih =>
    intro st
    rw [List.foldl_cons, ih, subsectionStep]
    simp only [List.map_append, List.map_cons, List.map_nil, List.append_assoc, List.map_cons]
    have : eraseId (subsectionChunkMk st.2 rn rt sub.1 sub.2 it) =
        eraseId (subsectionChunkMk 0 rn rt sub.1 sub.2 it) := rfl
    rw [this]
    simp

theorem sectionStep_erase (sz : Nat) (rn rt : Str) (it : List Str)
    (st : List TextChunk × Nat) (e : Str × RuleSection) :
    ((sectionStep sz rn rt it st e).1).map eraseId =
      st.1.map eraseId ++ sectionBlock sz rn rt it e := by
  rw [sectionStep, sectionBlock]
  by_cases hbig : e.2.content.length > sz
  · simp only [if_pos hbig]
    rw [subsFold_erase]
    simp only [List.map_append, List.append_assoc]
    rw [splitSectionIntoChunks_eraseId_cid sz e.2.content st.2 0]
  · simp only [if_neg hbig]
    rw [subsFold_erase]
    simp only [List.map_append, List.map_cons, List.map_nil, List.append_assoc]
    have : eraseId (singleSectionChunkMk st.2 rn rt e.1 e.2 it) =
        eraseId (singleSectionChunkMk 0 rn rt e.1 e.2 it) := rfl
    rw [this]

theorem sectionsFold_erase (sz : Nat) (rn rt : Str) (it : List Str) :
    ∀ (secs : List (Str × RuleSection)) (st : List TextChunk × Nat),
      ((secs.foldl (sectionStep sz rn rt it) st).1).map eraseId =
        st.1.map eraseId ++ secs.flatMap (sectionBlock sz rn rt it) := by
  intro secs
  induction secs with
  | nil => intro st; simp
  | cons e rest ih =>
    intro st
    rw [List.foldl_cons, ih, sectionStep_erase]
    simp [List.append_assoc]

theorem ruleStep_erase (sz : Nat) (st : List TextChunk × Nat) (e : Str × GolfRuleHierarchy) :
    ((ruleStep sz st e).1).map eraseId = st.1.map eraseId ++ ruleBlock sz e := by
  rw [ruleStep, ruleBlock, sectionsFold_erase]
  simp only [List.map_append, List.map_cons, List.map_nil, List.append_assoc]
  have : eraseId (ruleChunkMk st.2 e.1 e.2) = eraseId (ruleChunkMk 0 e.1 e.2) := rfl
  rw [this]
  rfl

theorem createRuleBasedChunks_erase (sz : Nat) :
    ∀ (rules : List (Str × GolfRuleHierarchy)) (st : List TextChunk × Nat),
      ((rules.foldl (ruleStep sz) st).1).map eraseId =
        st.1.map eraseId ++ rules.flatMap (ruleBlock sz) := by
  intro rules
  induction rules with
  | nil => intro st; simp
  | cons e rest ih =>
    intro st
    rw [List.foldl_cons, ih, ruleStep_erase]
    simp [List.append_assoc]

/-- C4 amended: chunk creation is a pure function of the enumeration of the
rule map; identical enumerations give identical chunk lists, and permuted
enumerations give the same chunks up to order once the (order-dependent) ids
are erased. The claim as stated is refuted because the code iterates the Go
map directly, in unspecified order, rather than by sorted rule key. -/
theorem createRuleBasedChunks_perm_upto_ids (sz : Nat)
    (l₁ l₂ : List (Str × GolfRuleHierarchy)) (h : l₁.Perm l₂) :
    ((createRuleBasedChunks sz l₁).map eraseId).Perm
      ((createRuleBasedChunks sz l₂).map eraseId) := by
  rw [createRuleBasedChunks, createRuleBasedChunks,
    createRuleBasedChunks_erase, createRuleBasedChunks_erase]
  simpa using h.flatMap_right (ruleBlock sz)

/-- C4 witness: the two enumerations of the two-rule map from the
counterexample produce id-erased chunk multisets that coincide. -/
theorem createRuleBasedChunks_perm_upto_ids_witness :
    ((createRuleBasedChunks MAX_CHUNK_SIZE
        [(str "Rule 1", rule0), (str "Rule 2", rule1)]).map eraseId).Perm
      ((createRuleBasedChunks MAX_CHUNK_SIZE
        [(str "Rule 2", rule1), (str "Rule 1", rule0)]).map eraseId) :=
  createRuleBasedChunks_perm_upto_ids MAX_CHUNK_SIZE _ _ (by decide)

/-- C10: full rule-reference matches are appended to the result without
deduplication (the count of any value in the result is at least its count
among the full matches), only the synthesized bare main-rule references are
deduplicated (the count exceeds the full-match count by at most one); in
particular a question naming Rule 14.3 twice returns it twice, with the bare
Rule 14 added once. -/
theorem extractRuleReferences_dedup_only_main_rules :
    (∀ (query v : Str),
      cnt v ((findAllQueryRefs (query.length + 1) query).map Prod.fst) ≤
          cnt v (extractRuleReferences query) ∧
        cnt v (extractRuleReferences query) ≤
          cnt v ((findAllQueryRefs (query.length + 1) query).map Prod.fst) + 1) ∧
    extractRuleReferences (str "Does Rule 14.3 or Rule 14.3 apply?") =
      [str "Rule 14.3", str "Rule 14", str "Rule 14.3"] := by
  constructor
  · intro query v
    constructor
    · have h := ruleRef_fold_cnt_lower v (findAllQueryRefs (query.length + 1) query) []
      simpa [extractRuleReferences, cnt] using h
    · have h := ruleRef_fold_cnt_upper v (findAllQueryRefs (query.length + 1) query) []
      simpa [extractRuleReferences, cnt] using h
  · decide

theorem getLastParagraph_len_le (L : Nat) (paras : List Str) (b : Str)
    (hEW : (∃ p, p ∈ paras ∧ b = p) ∨ (∃ z p, p ∈ paras ∧ b = z ++ (parSep ++ p)))
    (hL : ∀ p ∈ paras, p.length ≤ L) :
    (getLastParagraph b).length ≤ L + 1 := by
  have hsep : parSep ≠ [] := by decide
  have hfuel : b.length < b.length + 1 := Nat.lt_succ_self _
  have hspec := splitFuel_last_spec parSep hsep (b.length + 1) b hfuel
  have hgl : getLastParagraph b = (splitFuel parSep (b.length + 1) b).getLastD [] := by
    rw [getLastParagraph, splitOnStr, if_neg hsep]
  rw [hgl]
  rcases hEW with ⟨p, hp, hbp⟩ | ⟨z, p, hp, rfl⟩
  · subst hbp
    exact le_trans (List.IsSuffix.length_le hspec.1) (le_trans (hL b hp) (Nat.le_succ _))
  · have hocc := suffix_occursFree_length_le parSep z p _ hsep hspec.1 hspec.2
    have hple := hL p hp
    have h2 : parSep.length = 2 := rfl
    rw [h2] at hocc
    omega

theorem splitStep_preserves (sz L B : Nat) (paras : List Str) (rn rt sn sT pa : Str)
    (pg : Nat) (it : List Str) (st : SplitAcc) (para : Str) (hpara : para ∈ paras)
    (hL : ∀ p ∈ paras, p.length ≤ L)
    (hB1 : sz + 2 ≤ B) (hB2 : L + 102 ≤ B) (hB3 : 2 * L + 5 ≤ B)
    (h : SplitInv B paras st) :
    SplitInv B paras (splitStep sz rn rt sn sT pa pg it paras.length st para) := by
  obtain ⟨hchunks, hbuf⟩ := h
  have hplen : para.length ≤ L := hL para hpara
  have h2 : parSep.length = 2 := rfl
  have hM : MIN_CHUNK_SIZE = 100 := rfl
  by_cases hcond : st.buffer.length + para.length > sz ∧ st.buffer.length > MIN_CHUNK_SIZE
  · have hbufne : st.buffer ≠ [] := by
      intro hcz
      have := hcond.2
      rw [hcz, hM] at this
      simp at this
    rcases hbuf with hbe | ⟨hblen, hEW⟩
    · exact absurd hbe hbufne
    rw [splitStep_flush sz rn rt sn sT pa pg it paras.length st para hcond]
    constructor
    · intro c hc
      simp only [List.mem_append, List.mem_singleton] at hc
      rcases hc with hc | hc
      · exact hchunks c hc
      · subst hc
        exact hblen
    · have hlp : (getLastParagraph st.buffer).length ≤ L + 1 :=
        getLastParagraph_len_le L paras st.buffer hEW hL
      by_cases hnp : paras.length > 1
      · by_cases hlpz : (getLastParagraph st.buffer).length > 0
        · have hseedlen : (getLastParagraph st.buffer ++ parSep).length > 0 := by
            rw [List.length_append, h2]
            omega
          simp only [if_pos hnp, if_pos hlpz, if_pos hseedlen]
          refine Or.inr ⟨?_, Or.inr ⟨getLastParagraph st.buffer ++ parSep, para, hpara, ?_⟩⟩
          · simp only [List.length_append, h2]
            omega
          · simp [List.append_assoc]
        · simp only [if_pos hnp, if_neg hlpz, List.length_nil, gt_iff_lt, Nat.lt_irrefl,
            if_false]
          exact Or.inr ⟨le_trans hplen (by omega), Or.inl ⟨para, hpara, rfl⟩⟩
      · simp only [if_neg hnp, List.length_nil, gt_iff_lt, Nat.lt_irrefl, if_false]
        exact Or.inr ⟨le_trans hplen (by omega), Or.inl ⟨para, hpara, rfl⟩⟩
  · rw [splitStep_noflush sz rn rt sn sT pa pg it paras.length st para hcond]
    refine ⟨hchunks, ?_⟩
    by_cases hbz : st.buffer.length > 0
    · simp only [if_pos hbz]
      rcases hbuf with hbe | ⟨hblen, hEW⟩
      · rw [hbe] at hbz
        simp at hbz
      · have hdisj : st.buffer.length + para.length ≤ sz ∨ st.buffer.length ≤ MIN_CHUNK_SIZE := by
          by_cases ha : st.buffer.length + para.length > sz
          · by_cases hb : st.buffer.length > MIN_CHUNK_SIZE
            · exact absurd ⟨ha, hb⟩ hcond
            · omega
          · omega
        refine Or.inr ⟨?_, Or.inr ⟨st.buffer, para, hpara, by simp [List.append_assoc]⟩⟩
        simp only [List.length_append, h2]
        rw [hM] at hdisj
        omega
    · simp only [if_neg hbz]
      exact Or.inr ⟨le_trans hplen (by omega), Or.inl ⟨para, hpara, rfl⟩⟩

/-- C5 amended: every chunk emitted by the section splitter, for a section
whose paragraphs all have length at most L, has content length at most
max(size + 2, L + 102, 2L + 5). The original claim fails because the
two-byte paragraph separator escapes the size check, because the minimum-size
guard lets an oversized paragraph join a small buffer, and because overlap
seeding re-adds a paragraph after flushing without rechecking the bound; each
of those escapes is covered by one arm of this bound (the single-oversized-
paragraph case of the original claim is the L-dependence of the bound). -/
theorem splitSectionIntoChunks_length_bound (sz L : Nat) (content : Str) (startID : Nat)
    (rn rt sn sT pa : Str) (pg : Nat) (it : List Str)
    (hL : ∀ p ∈ splitOnStr parSep content, p.length ≤ L) :
    ∀ c ∈ splitSectionIntoChunks sz content startID rn rt sn sT pa pg it,
      c.content.length ≤ max (sz + 2) (max (L + 102) (2 * L + 5)) := by
  have hB1 : sz + 2 ≤ max (sz + 2) (max (L + 102) (2 * L + 5)) := le_max_left _ _
  have hB2 : L + 102 ≤ max (sz + 2) (max (L + 102) (2 * L + 5)) :=
    le_trans (le_max_left _ _) (le_max_right _ _)
  have hB3 : 2 * L + 5 ≤ max (sz + 2) (max (L + 102) (2 * L + 5)) :=
    le_trans (le_max_right _ _) (le_max_right _ _)
  have hinv := foldl_inv
    (SplitInv (max (sz + 2) (max (L + 102) (2 * L + 5))) (splitOnStr parSep content))
    (splitStep sz rn rt sn sT pa pg it (splitOnStr parSep content).length)
    (splitOnStr parSep content) ⟨[], startID, []⟩
    ⟨by simp, Or.inl rfl⟩
    (fun st' a ha hP =>
      splitStep_preserves sz L _ (splitOnStr parSep content) rn rt sn sT pa pg it st' a ha hL
        hB1 hB2 hB3 hP)
  intro c hc
  rw [splitSectionIntoChunks] at hc
  by_cases hfin :
      ((splitOnStr parSep content).foldl
        (splitStep sz rn rt sn sT pa pg it (splitOnStr parSep content).length)
        ⟨[], startID, []⟩).buffer.length > 0
  · rw [if_pos hfin] at hc
    simp only [List.mem_append, List.mem_singleton] at hc
    rcases hc with hc | hc
    · exact hinv.1 c hc
    · subst hc
      rcases hinv.2 with hbe | ⟨hblen, _⟩
      · rw [hbe] at hfin
        simp at hfin
      · exact hblen
  · rw [if_neg hfin] at hc
    exact hinv.1 c hc

/-- C5 amended, witness: a two-paragraph section with paragraphs of length at
most 2 at configured size 150; every emitted chunk is within the bound. -/
theorem splitSectionIntoChunks_length_bound_witness :
    (∀ p ∈ splitOnStr parSep contentW, p.length ≤ 2) ∧
    ∀ c ∈ splitSectionIntoChunks 150 contentW 1 (str "Rule 1") (str "T") (str "1.1")
        (str "S") (str "Rule 1 > 1.1") 1 [],
      c.content.length ≤ max (150 + 2) (max (2 + 102) (2 * 2 + 5)) :=
  ⟨by decide,
    splitSectionIntoChunks_length_bound 150 2 contentW 1 (str "Rule 1") (str "T") (str "1.1")
      (str "S") (str "Rule 1 > 1.1") 1 [] (by decide)⟩

/-- C9 amended: every chunk except possibly the last emitted by the section
splitter has content length strictly above MIN_CHUNK_SIZE, because a chunk is
only flushed when the buffer already exceeds the minimum; the claimed
at-least-3-chunks part fails (see the counterexample), the minimum-length part
holds. -/
theorem split_nonfinal_chunks_exceed_min (sz : Nat) (content : Str) (startID : Nat)
    (rn rt sn sT pa : Str) (pg : Nat) (it : List Str) :
    ∀ c ∈ (splitSectionIntoChunks sz content startID rn rt sn sT pa pg it).dropLast,
      c.content.length > MIN_CHUNK_SIZE := by
  have hinv := foldl_inv
    (fun (st : SplitAcc) => ∀ c ∈ st.chunks, c.content.length > MIN_CHUNK_SIZE)
    (splitStep sz rn rt sn sT pa pg it (splitOnStr parSep content).length)
    (splitOnStr parSep content) ⟨[], startID, []⟩
    (by simp)
    (fun st' a _ hP => by
      by_cases hcond : st'.buffer.length + a.length > sz ∧ st'.buffer.length > MIN_CHUNK_SIZE
      · rw [splitStep_flush sz rn rt sn sT pa pg it (splitOnStr parSep content).length st' a
          hcond]
        intro c hc
        simp only [List.mem_append, List.mem_singleton] at hc
        rcases hc with hc | hc
        · exact hP c hc
        · subst hc
          exact hcond.2
      · rw [splitStep_noflush sz rn rt sn sT pa pg it (splitOnStr parSep content).length st' a
          hcond]
        exact hP)
  intro c hc
  rw [splitSectionIntoChunks] at hc
  by_cases hfin :
      ((splitOnStr parSep content).foldl
        (splitStep sz rn rt sn sT pa pg it (splitOnStr parSep content).length)
        ⟨[], startID, []⟩).buffer.length > 0
  · rw [if_pos hfin, List.dropLast_concat] at hc
    exact hinv c hc
  · rw [if_neg hfin] at hc
    exact hinv c (List.IsPrefix.subset (List.dropLast_prefix _) hc)

set_option maxRecDepth 100000 in
/-- C9 amended, witness: at configured size 150, the uniform 301-character
section flushes a first chunk of 200 characters, above the minimum. -/
theorem split_nonfinal_chunks_exceed_min_witness :
    ((splitSectionIntoChunks 150 content9 1 (str "Rule 1") (str "T") (str "1.1") (str "S")
      (str "Rule 1 > 1.1") 1 []).dropLast.getD 0 dummyChunk).content.length > MIN_CHUNK_SIZE :=
  split_nonfinal_chunks_exceed_min 150 content9 1 (str "Rule 1") (str "T") (str "1.1")
    (str "S") (str "Rule 1 > 1.1") 1 [] _ (by decide)


theorem tryMatchQueryRef_rule143_isSome (w : Str) :
    (tryMatchQueryRef (str "Rule 14.3" ++ w)).isSome = true := by
  have he : str "Rule 14.3" ++ w =
      'R' :: 'u' :: 'l' :: 'e' :: ' ' :: '1' :: '4' :: '.' :: '3' :: w := rfl
  rw [he, tryMatchQueryRef]
  have hd : dropLit (str "Rule") ('R' :: 'u' :: 'l' :: 'e' :: ' ' :: '1' :: '4' :: '.' :: '3' :: w)
      = some (' ' :: '1' :: '4' :: '.' :: '3' :: w) := rfl
  have hsp : (' ' :: '1' :: '4' :: '.' :: '3' :: w).takeWhile isRegexSpace = [' '] := rfl
  have hsp2 : (' ' :: '1' :: '4' :: '.' :: '3' :: w).dropWhile isRegexSpace
      = '1' :: '4' :: '.' :: '3' :: w := rfl
  have hds : ('1' :: '4' :: '.' :: '3' :: w).takeWhile Char.isDigit = ['1', '4'] := rfl
  have hds2 : ('1' :: '4' :: '.' :: '3' :: w).dropWhile Char.isDigit = '.' :: '3' :: w := rfl
  have ht3 : List.takeWhile Char.isDigit ('3' :: w) = '3' :: List.takeWhile Char.isDigit w := by
    rw [List.takeWhile_cons]
    rfl
  have hw3 : List.dropWhile Char.isDigit ('3' :: w) = List.dropWhile Char.isDigit w := by
    rw [List.dropWhile_cons]
    rfl
  simp only [hd, hsp, hsp2, hds, hds2, ht3, hw3, List.cons_ne_nil, if_false, reduceIte]
  rfl

theorem findAllQueryRefs_ne_nil (v : Str) :
    ∀ (u : Str) (fuel : Nat), (u ++ (str "Rule 14.3" ++ v)).length < fuel →
      findAllQueryRefs fuel (u ++ (str "Rule 14.3" ++ v)) ≠ [] := by
  intro u
  induction u with
  | nil =>
    intro fuel hf
    cases fuel with
    | zero => simp at hf
    | succ n =>
      rw [List.nil_append]
      have hc : str "Rule 14.3" ++ v =
          'R' :: 'u' :: 'l' :: 'e' :: ' ' :: '1' :: '4' :: '.' :: '3' :: v := rfl
      have hsome := tryMatchQueryRef_rule143_isSome v
      rw [hc] at hsome ⊢
      obtain ⟨x, hmt⟩ := Option.isSome_iff_exists.mp hsome
      obtain ⟨full, g1, rest⟩ := x
      rw [findAllQueryRefs, hmt]
      simp
  | cons c u2 ih =>
    intro fuel hf
    cases fuel with
    | zero => simp at hf
    | succ n =>
      rw [List.cons_append, findAllQueryRefs]
      cases hmt : tryMatchQueryRef (c :: (u2 ++ (str "Rule 14.3" ++ v))) with
      | some x =>
        obtain ⟨full, g1, rest⟩ := x
        simp
      | none =>
        have hlt : (u2 ++ (str "Rule 14.3" ++ v)).length < n := by
          rw [List.cons_append] at hf
          simp only [List.length_cons] at hf
          omega
        exact ih n hlt

theorem ruleRefStep_len (acc : List Str) (m : Str × Str) :
    acc.length + 1 ≤ (ruleRefStep acc m).length := by
  rw [ruleRefStep]
  by_cases h2 : m.2 ≠ []
  · simp only [if_pos h2]
    by_cases hm : str "Rule " ++ m.2 ∈ acc ++ [m.1]
    · simp [hm]
    · simp [hm]
  · simp [h2]

theorem ruleRef_fold_len : ∀ (ms : List (Str × Str)) (acc : List Str),
    acc.length ≤ (ms.foldl ruleRefStep acc).length := by
  intro ms
  induction ms with
  | nil => intro acc; simp
  | cons m rest ih =>
    intro acc
    rw [List.foldl_cons]
    exact le_trans (le_trans (Nat.le_succ _) (ruleRefStep_len acc m)) (ih _)

theorem extractRuleReferences_ne_nil_of_rule143 (u v query : Str)
    (hq : query = u ++ (str "Rule 14.3" ++ v)) : extractRuleReferences query ≠ [] := by
  subst hq
  have hms := findAllQueryRefs_ne_nil v u ((u ++ (str "Rule 14.3" ++ v)).length + 1)
    (Nat.lt_succ_self _)
  rw [extractRuleReferences]
  obtain ⟨m, ms, hmm⟩ := List.exists_cons_of_ne_nil hms
  rw [hmm, List.foldl_cons]
  have h1 := ruleRefStep_len [] m
  have h2 := ruleRef_fold_len ms (ruleRefStep [] m)
  intro hc
  rw [hc] at h2
  simp only [List.length_nil, Nat.le_zero] at h2
  simp only [List.length_nil] at h1
  omega

/-- C6 amended: a question containing the literal text Rule 14.3 extracts at
least one rule reference, so processQuery selects the structure-prioritized
search; that search restricts the ranked table to the rows whose section,
parent-rule or cross-reference set matches one of the full references
extracted from the question (the storage layer does not add the bare main
rule to the restriction set), and every returned chunk satisfies that
restriction; when no row matches, processQuery returns the fixed
no-relevant-context response rather than falling back to plain similarity
search, contrary to the fallback asserted by the original claim. -/
theorem rule143_routes_structure_search (table : List TextChunk) (u v query : Str)
    (limit : Nat) (emb : Vec) (embedText : Str → Except Str Vec)
    (llmAnswer : Str → List TextChunk → Except Str Response)
    (hq : query = u ++ (str "Rule 14.3" ++ v))
    (hemb : embedText query = Except.ok emb) :
    extractRuleReferences query ≠ [] ∧
    routedSearch (modelStore table) (extractRuleReferences query) (identifyGolfTerms query) []
        emb query limit =
      Except.ok ((table.filter (matchesRuleRefs (structureRefs query))).take limit) ∧
    (∀ c ∈ (table.filter (matchesRuleRefs (structureRefs query))).take limit,
      matchesRuleRefs (structureRefs query) c = true) ∧
    (table.filter (matchesRuleRefs (structureRefs query)) = [] →
      processQuery (modelStore table) embedText llmAnswer query limit [] =
        Except.ok noContextResponse) := by
  have hrefs := extractRuleReferences_ne_nil_of_rule143 u v query hq
  have hsrefs : structureRefs query ≠ [] := by
    rw [structureRefs]
    subst hq
    have hms := findAllQueryRefs_ne_nil v u
      ((u ++ (str "Rule 14.3" ++ v)).length + 1) (Nat.lt_succ_self _)
    simpa using hms
  have hroute : routedSearch (modelStore table) (extractRuleReferences query)
      (identifyGolfTerms query) [] emb query limit =
        Except.ok ((table.filter (matchesRuleRefs (structureRefs query))).take limit) := by
    rw [routedSearch]
    have hlen : (extractRuleReferences query).length > 0 := List.length_pos.mpr hrefs
    rw [if_pos (Or.inl hlen)]
    show querySimilarWithStructureModel table query limit = _
    rw [querySimilarWithStructureModel]
    rw [if_pos (List.length_pos.mpr hsrefs)]
  refine ⟨hrefs, hroute, ?_, ?_⟩
  · intro c hc
    exact List.of_mem_filter (List.mem_of_mem_take hc)
  · intro hempty
    have hroute0 : routedSearch (modelStore table) (extractRuleReferences query)
        (identifyGolfTerms query) [] emb query limit = Except.ok [] := by
      rw [hroute, hempty]
      simp
    simp [processQuery, hemb, hroute0]

set_option maxRecDepth 40000 in
/-- C6 amended, witness: the concrete question about Rule 14.3 against the
one-row store tied to Rule 5. -/
theorem rule143_routes_structure_search_witness :
    extractRuleReferences query143 ≠ [] ∧
    routedSearch (modelStore table0) (extractRuleReferences query143)
        (identifyGolfTerms query143) [] [] query143 5 =
      Except.ok ((table0.filter (matchesRuleRefs (structureRefs query143))).take 5) ∧
    (∀ c ∈ (table0.filter (matchesRuleRefs (structureRefs query143))).take 5,
      matchesRuleRefs (structureRefs query143) c = true) ∧
    (table0.filter (matchesRuleRefs (structureRefs query143)) = [] →
      processQuery (modelStore table0) okEmbed okLLM query143 5 [] =
        Except.ok noContextResponse) :=
  rule143_routes_structure_search table0 (str "What about ") (str "?") query143 5 [] okEmbed
    okLLM (by decide) rfl


end GolfRag
